import Mathlib

/-
Verification of the ft_linear_regression training and prediction code
(src/linear_regression.py, src/predict.py).

Python floats are modelled by `PFloat`: an exact rational together with the
IEEE special values +inf, -inf and NaN.  Arithmetic on finite values is exact
(no rounding or overflow is modelled); the special values propagate following
IEEE 754 rules as Python implements them, and division by the float zero
raises ZeroDivisionError, modelled with `Except`.
-/

namespace LinReg

/-- Model of a Python float: an exact rational, +inf, -inf, or NaN. -/
inductive PFloat where
  | fin (q : ℚ)
  | inf
  | ninf
  | nan
deriving DecidableEq

/-- Python-level exceptions raised by the modelled code: `ValueError`
(raised by `min`/`max` on an empty sequence; the spec calls this condition
`EmptyDatasetError`) and `ZeroDivisionError` (float division by zero; the
spec calls the degenerate-range instance `DegenerateRangeError`). -/
inductive PyErr where
  | valueError
  | zeroDivision
deriving DecidableEq

/-- Equality of `Except` results is decidable when both components are. -/
instance {ε α : Type} [DecidableEq ε] [DecidableEq α] :
    DecidableEq (Except ε α) := fun a b =>
  match a, b with
  | .ok x, .ok y =>
    if h : x = y then .isTrue (by rw [h])
    else .isFalse (by intro hc; cases hc; exact h rfl)
  | .error x, .error y =>
    if h : x = y then .isTrue (by rw [h])
    else .isFalse (by intro hc; cases hc; exact h rfl)
  | .ok _, .error _ => .isFalse (by intro hc; cases hc)
  | .error _, .ok _ => .isFalse (by intro hc; cases hc)

/-- IEEE addition on modelled floats. -/
def padd : PFloat → PFloat → PFloat
  | .nan, _ => .nan
  | .fin _, .nan => .nan
  | .inf, .nan => .nan
  | .ninf, .nan => .nan
  | .fin a, .fin b => .fin (a + b)
  | .fin _, .inf => .inf
  | .fin _, .ninf => .ninf
  | .inf, .fin _ => .inf
  | .inf, .inf => .inf
  | .inf, .ninf => .nan
  | .ninf, .fin _ => .ninf
  | .ninf, .inf => .nan
  | .ninf, .ninf => .ninf

/-- IEEE negation on modelled floats. -/
def pneg : PFloat → PFloat
  | .fin a => .fin (-a)
  | .inf => .ninf
  | .ninf => .inf
  | .nan => .nan

/-- IEEE subtraction: `a - b = a + (-b)`. -/
def psub (a b : PFloat) : PFloat := padd a (pneg b)

/-- IEEE multiplication on modelled floats (`inf * 0 = nan`, sign rules). -/
def pmul : PFloat → PFloat → PFloat
  | .nan, _ => .nan
  | .fin _, .nan => .nan
  | .inf, .nan => .nan
  | .ninf, .nan => .nan
  | .fin a, .fin b => .fin (a * b)
  | .fin a, .inf => if 0 < a then .inf else if a < 0 then .ninf else .nan
  | .fin a, .ninf => if 0 < a then .ninf else if a < 0 then .inf else .nan
  | .inf, .fin b => if 0 < b then .inf else if b < 0 then .ninf else .nan
  | .ninf, .fin b => if 0 < b then .ninf else if b < 0 then .inf else .nan
  | .inf, .inf => .inf
  | .inf, .ninf => .ninf
  | .ninf, .inf => .ninf
  | .ninf, .ninf => .inf

/-- The value of float division for a non-zero divisor (the divisor
`fin 0` never reaches this function: `pdiv` raises on it first). -/
def pdivRaw : PFloat → PFloat → PFloat
  | .nan, _ => .nan
  | .fin _, .nan => .nan
  | .inf, .nan => .nan
  | .ninf, .nan => .nan
  | .fin a, .fin b => .fin (a / b)
  | .inf, .fin b => if 0 ≤ b then .inf else .ninf
  | .ninf, .fin b => if 0 ≤ b then .ninf else .inf
  | .fin _, .inf => .fin 0
  | .fin _, .ninf => .fin 0
  | .inf, .inf => .nan
  | .inf, .ninf => .nan
  | .ninf, .inf => .nan
  | .ninf, .ninf => .nan

/-- Python float division: raises `ZeroDivisionError` when the divisor is
the float zero (Python raises even for `inf/0.0` and `nan/0.0`). -/
def pdiv (a b : PFloat) : Except PyErr PFloat :=
  if b = .fin 0 then .error .zeroDivision else .ok (pdivRaw a b)

/-- `math.isnan`. -/
def PFloat.isnan : PFloat → Bool
  | .nan => true
  | _ => false

/-- Finiteness of a modelled float (used only to state claims; the source
code never tests it). -/
def PFloat.isFinite : PFloat → Bool
  | .fin _ => true
  | _ => false

/-- Python `<` on floats: NaN is incomparable with everything. -/
def pltb : PFloat → PFloat → Bool
  | .fin a, .fin b => decide (a < b)
  | .fin _, .inf => true
  | .ninf, .fin _ => true
  | .ninf, .inf => true
  | _, _ => false

/-- A row of the dataset: mirrors the `Car` dataclass of
src/linear_regression.py. -/
structure Car where
  km : PFloat
  price : PFloat
deriving DecidableEq

/-- `estimate_price` from src/predict.py: `t0 + t1 * mileage`. -/
def estimate_price (t0 t1 mileage : PFloat) : PFloat :=
  padd t0 (pmul t1 mileage)

/-- `normalize` from src/linear_regression.py:
`(n - min_range) / (max_range - min_range)`. -/
def normalize (n min_range max_range : PFloat) : Except PyErr PFloat :=
  pdiv (psub n min_range) (psub max_range min_range)

/-- `denormalize_theta` from src/linear_regression.py. -/
def denormalize_theta (t0 t1 min_range max_range : PFloat) :
    Except PyErr (PFloat × PFloat) := do
  let t1_denorm ← pdiv t1 (psub max_range min_range)
  let t0_denorm := psub t0 (pmul t1_denorm min_range)
  return (t0_denorm, t1_denorm)

/-- Python `min(iterable)` over floats: keep the first element, replace the
accumulator whenever `item < acc`. -/
def pyMinFold (l : List PFloat) (a : PFloat) : PFloat :=
  l.foldl (fun acc x => if pltb x acc then x else acc) a

/-- Python `max(iterable)` over floats: replace the accumulator whenever
`acc < item`. -/
def pyMaxFold (l : List PFloat) (a : PFloat) : PFloat :=
  l.foldl (fun acc x => if pltb acc x then x else acc) a

/-- Python `min` on a sequence: `ValueError` when empty. -/
def pyMin : List PFloat → Except PyErr PFloat
  | [] => .error .valueError
  | x :: rest => .ok (pyMinFold rest x)

/-- Python `max` on a sequence: `ValueError` when empty. -/
def pyMax : List PFloat → Except PyErr PFloat
  | [] => .error .valueError
  | x :: rest => .ok (pyMaxFold rest x)

/-- `get_minmax` from src/linear_regression.py: min and max of the `km`
values. -/
def get_minmax (cars : List Car) : Except PyErr (PFloat × PFloat) := do
  let min_km ← pyMin (cars.map (fun car => car.km))
  let max_km ← pyMax (cars.map (fun car => car.km))
  return (min_km, max_km)

/-- `normalize_cars` from src/linear_regression.py: recomputes the range and
normalizes every `km`, keeping every `price`. -/
def normalize_cars (cars : List Car) : Except PyErr (List Car) := do
  let mm ← get_minmax cars
  cars.mapM (fun car => do
    let k ← normalize car.km mm.1 mm.2
    return { km := k, price := car.price })

/-- One step of the per-observation accumulation inside an epoch (the inner
`for car in cars` loop of `main` in src/linear_regression.py). -/
def accumStep (t0 t1 : PFloat) (acc : PFloat × PFloat) (car : Car) :
    PFloat × PFloat :=
  let error_t0 := psub (estimate_price t0 t1 car.km) car.price
  let error_t1 := pmul error_t0 car.km
  (padd acc.1 error_t0, padd acc.2 error_t1)

/-- The accumulated `(accum_error_t0, accum_error_t1)` of one epoch,
starting from `(0.0, 0.0)`. -/
def epochAccum (cars : List Car) (t0 t1 : PFloat) : PFloat × PFloat :=
  cars.foldl (accumStep t0 t1) (.fin 0, .fin 0)

/-- The four values an epoch of `main` produces: the updated parameters and
the step values `temp_t0`, `temp_t1` (printed on divergence). -/
structure EpochUpdate where
  t0 : PFloat
  t1 : PFloat
  temp_t0 : PFloat
  temp_t1 : PFloat
deriving DecidableEq

/-- One epoch of the gradient-descent loop of `main`:
`temp = learning_rate * (1 / n_cars) * accum_error`, then `t -= temp`.
The division `1 / n_cars` raises `ZeroDivisionError` when `n_cars = 0`. -/
def epochUpdate (cars : List Car) (n_cars : Nat) (learning_rate t0 t1 : PFloat) :
    Except PyErr EpochUpdate := do
  let accum := epochAccum cars t0 t1
  let oneOverN ← pdiv (.fin 1) (.fin (n_cars : ℚ))
  let temp_t0 := pmul (pmul learning_rate oneOverN) accum.1
  let temp_t1 := pmul (pmul learning_rate oneOverN) accum.2
  return { t0 := psub t0 temp_t0, t1 := psub t1 temp_t1,
           temp_t0 := temp_t0, temp_t1 := temp_t1 }

/-- Outcome of the epoch loop: either the early `return` taken when
`math.isnan(t0) or math.isnan(t1)` (carrying the printed diagnostic values),
or normal completion with the fitted parameters. -/
inductive TrainResult where
  | diverged (epoch : Nat) (t0 t1 temp_t0 temp_t1 : PFloat)
  | completed (t0 t1 : PFloat)
deriving DecidableEq

/-- The `for _ in range(epochs)` loop of `main`: `k` epochs remain and `i`
is the index of the current epoch (Python's loop variable `_`). -/
def trainLoop (cars : List Car) (n_cars : Nat) (learning_rate : PFloat) :
    Nat → Nat → PFloat → PFloat → Except PyErr TrainResult
  | 0, _, t0, t1 => .ok (.completed t0 t1)
  | k + 1, i, t0, t1 => do
    let u ← epochUpdate cars n_cars learning_rate t0 t1
    if u.t0.isnan || u.t1.isnan then
      .ok (.diverged i u.t0 u.t1 u.temp_t0 u.temp_t1)
    else
      trainLoop cars n_cars learning_rate k (i + 1) u.t0 u.t1

/-- What `main` prints before returning: either the optimized theta values
(with the export statement), or the divergence diagnostic line. -/
inductive MainOutput where
  | theta (t0 t1 : PFloat)
  | divergedMsg (epoch : Nat) (t0 t1 temp_t0 temp_t1 : PFloat)
deriving DecidableEq

/-- `main` from src/linear_regression.py, taking the already-loaded dataset.
`epochs` is a Python int; `range(epochs)` is empty when `epochs <= 0`. -/
def mainRun (cars : List Car) (learning_rate : PFloat) (epochs : ℤ)
    (normalize_km : Bool) : Except PyErr MainOutput := do
  let n_cars := cars.length
  let mm ← get_minmax cars
  let cars ← if normalize_km then normalize_cars cars else pure cars
  match ← trainLoop cars n_cars learning_rate epochs.toNat 0 (.fin 0) (.fin 0) with
  | .diverged i a b c d => return .divergedMsg i a b c d
  | .completed t0 t1 =>
    if normalize_km then
      let td ← denormalize_theta t0 t1 mm.1 mm.2
      return .theta td.1 td.2
    else
      return .theta t0 t1

/-- The `__main__` block of src/linear_regression.py: runs `main` on the
loader's result (`loaded` is what `read_csv` produced, or the exception it
raised); any exception is printed and the process exits with status 1,
otherwise it exits with status 0.  Returns (printed outcome, exit status). -/
def entry (loaded : Except PyErr (List Car)) (learning_rate : PFloat)
    (epochs : ℤ) (normalize_km : Bool) : Except PyErr MainOutput × Nat :=
  match loaded.bind (fun cars => mainRun cars learning_rate epochs normalize_km) with
  | .ok out => (.ok out, 0)
  | .error e => (.error e, 1)

/-- `main` from src/predict.py: reads the two parameters from the
environment, defaulting to `0.0` when absent, and prints the estimate. -/
def predictMain (envT0 envT1 : Option PFloat) (mileage : PFloat) : PFloat :=
  estimate_price (envT0.getD (.fin 0)) (envT1.getD (.fin 0)) mileage

/-- Injection of an exact rational data point into a dataset row. -/
def toCar (p : ℚ × ℚ) : Car := { km := .fin p.1, price := .fin p.2 }

/-- Modelled from the spec: the per-epoch error sum
`sum_error_intercept = Σ ((intercept + slope * x) - y)` of claim C2,
over exact rationals. -/
def errSumT0 (data : List (ℚ × ℚ)) (a b : ℚ) : ℚ :=
  (data.map (fun p => a + b * p.1 - p.2)).sum

/-- Modelled from the spec: the per-epoch error sum
`sum_error_slope = Σ (((intercept + slope * x) - y) * x)` of claim C2. -/
def errSumT1 (data : List (ℚ × ℚ)) (a b : ℚ) : ℚ :=
  (data.map (fun p => (a + b * p.1 - p.2) * p.1)).sum

/-- Modelled from the spec: one epoch of batch gradient descent exactly as
claim C2 words it: `intercept -= learning_rate * sum_error_intercept / n`,
`slope -= learning_rate * sum_error_slope / n`. -/
def specEpoch (data : List (ℚ × ℚ)) (lr n : ℚ) (ab : ℚ × ℚ) : ℚ × ℚ :=
  (ab.1 - lr * errSumT0 data ab.1 ab.2 / n,
   ab.2 - lr * errSumT1 data ab.1 ab.2 / n)

/-- Modelled from the spec: `k` epochs of the claimed update rule. -/
def specTrain (data : List (ℚ × ℚ)) (lr n : ℚ) : Nat → ℚ × ℚ → ℚ × ℚ
  | 0, ab => ab
  | k + 1, ab => specTrain data lr n k (specEpoch data lr n ab)

/-! Helper lemmas about the float model on finite values. -/

@[simp] theorem padd_fin (a b : ℚ) : padd (.fin a) (.fin b) = .fin (a + b) := rfl

@[simp] theorem pneg_fin (a : ℚ) : pneg (.fin a) = .fin (-a) := rfl

@[simp] theorem pmul_fin (a b : ℚ) : pmul (.fin a) (.fin b) = .fin (a * b) := rfl

@[simp] theorem psub_fin (a b : ℚ) : psub (.fin a) (.fin b) = .fin (a - b) := by
  simp [psub, sub_eq_add_neg]

@[simp] theorem isnan_fin (a : ℚ) : (PFloat.fin a).isnan = false := rfl

theorem pure_eq_ok {α : Type} (x : α) : (pure x : Except PyErr α) = Except.ok x := rfl

theorem pdiv_fin_ne (a b : ℚ) (hb : b ≠ 0) :
    pdiv (.fin a) (.fin b) = .ok (.fin (a / b)) := by
  simp [pdiv, pdivRaw, hb]

theorem estimate_price_fin (t0 t1 x : ℚ) :
    estimate_price (.fin t0) (.fin t1) (.fin x) = .fin (t0 + t1 * x) := rfl

/-- Claim C6: `predict(t0, t1, x)` (the shared `estimate_price`) is the pure
total function `t0 + t1 * x`, and it is exactly affine in `x`:
`predict(t0, t1, 2*x) - predict(t0, t1, x) = predict(t0, t1, x) - t0` for
all finite `t0`, `t1`, `x`. -/
theorem claim_C6_predict_affine (t0 t1 x : ℚ) :
    estimate_price (.fin t0) (.fin t1) (.fin x) = .fin (t0 + t1 * x) ∧
    psub (estimate_price (.fin t0) (.fin t1) (.fin (2 * x)))
        (estimate_price (.fin t0) (.fin t1) (.fin x))
      = psub (estimate_price (.fin t0) (.fin t1) (.fin x)) (.fin t0) := by
  refine ⟨rfl, ?_⟩
  simp [estimate_price]
  ring

/-- Claim C9: when the persisted parameters are absent from the environment
the predictor falls back to `(0.0, 0.0)` instead of failing, so for every
(integer) mileage input it predicts exactly zero. -/
theorem claim_C9_missing_params_zero (x : PFloat) (m : ℤ) :
    predictMain none none x = estimate_price (.fin 0) (.fin 0) x ∧
    predictMain none none (.fin (m : ℚ)) = .fin 0 := by
  refine ⟨rfl, ?_⟩
  simp [predictMain, estimate_price]

/-- Claim C3: for finite parameters fitted on normalized inputs and any
non-degenerate range `min < max`, `denormalize_theta` returns exactly
`slope = slope' / (max - min)` and `intercept = intercept' - slope * min`,
and predicting with the denormalized parameters on an original-unit input
`x` equals predicting with the normalized parameters on `normalize(x)`;
the inversion is algebraically exact. -/
theorem claim_C3_denormalize_roundtrip (a b mn mx x : ℚ) (h : mn < mx) :
    denormalize_theta (.fin a) (.fin b) (.fin mn) (.fin mx)
      = .ok (.fin (a - b / (mx - mn) * mn), .fin (b / (mx - mn))) ∧
    normalize (.fin x) (.fin mn) (.fin mx) = .ok (.fin ((x - mn) / (mx - mn))) ∧
    estimate_price (.fin (a - b / (mx - mn) * mn)) (.fin (b / (mx - mn))) (.fin x)
      = estimate_price (.fin a) (.fin b) (.fin ((x - mn) / (mx - mn))) := by
  have hne : mx - mn ≠ 0 := sub_ne_zero.mpr (ne_of_gt h)
  refine ⟨?_, ?_, ?_⟩
  · simp [denormalize_theta, psub_fin, pdiv_fin_ne _ _ hne, Except.bind, pure_eq_ok, bind]
  · simp [normalize, psub_fin, pdiv_fin_ne _ _ hne]
  · simp only [estimate_price_fin, PFloat.fin.injEq]
    field_simp
    ring

/-- Witness for claim C3 at `a = 5`, `b = 3`, `mn = 1`, `mx = 4`, `x = 2`. -/
theorem claim_C3_witness :
    denormalize_theta (.fin 5) (.fin 3) (.fin 1) (.fin 4)
      = .ok (.fin (5 - 3 / (4 - 1) * 1), .fin (3 / (4 - 1))) ∧
    normalize (.fin 2) (.fin 1) (.fin 4) = .ok (.fin ((2 - 1) / (4 - 1))) ∧
    estimate_price (.fin (5 - 3 / (4 - 1) * 1)) (.fin (3 / (4 - 1))) (.fin 2)
      = estimate_price (.fin 5) (.fin 3) (.fin ((2 - 1) / (4 - 1))) :=
  claim_C3_denormalize_roundtrip 5 3 1 4 2 (by norm_num)

/-- The fold inside Python `min` leaves the accumulator unchanged when every
list element equals it (used for the all-identical-`km` dataset). -/
theorem pyMinFold_const : ∀ (l : List PFloat) (a : PFloat),
    (∀ x ∈ l, x = a) → pyMinFold l a = a
  | [], _, _ => rfl
  | x :: rest, a, h => by
    have hx : x = a := h x (List.mem_cons_self x rest)
    have hstep : (if pltb x a then x else a) = a := by
      subst hx
      cases x <;> simp [pltb]
    simp only [pyMinFold, List.foldl_cons, hstep]
    exact pyMinFold_const rest a (fun y hy => h y (List.mem_cons_of_mem x hy))

/-- The fold inside Python `max` leaves the accumulator unchanged when every
list element equals it. -/
theorem pyMaxFold_const : ∀ (l : List PFloat) (a : PFloat),
    (∀ x ∈ l, x = a) → pyMaxFold l a = a
  | [], _, _ => rfl
  | x :: rest, a, h => by
    have hx : x = a := h x (List.mem_cons_self x rest)
    have hstep : (if pltb a x then x else a) = a := by
      subst hx
      cases x <;> simp [pltb]
    simp only [pyMaxFold, List.foldl_cons, hstep]
    exact pyMaxFold_const rest a (fun y hy => h y (List.mem_cons_of_mem x hy))

/-- `get_minmax` on a non-empty dataset returns the two folds. -/
theorem get_minmax_cons (c : Car) (rest : List Car) :
    get_minmax (c :: rest)
      = .ok (pyMinFold (rest.map (fun car => car.km)) c.km,
             pyMaxFold (rest.map (fun car => car.km)) c.km) := by
  simp [get_minmax, pyMin, pyMax, Except.bind, bind, pure_eq_ok]

/-- Claim C5: `normalize(x, min, max)` returns `(x - min) / (max - min)`
whenever `max ≠ min`; when `max = min` it raises the degenerate-range error
(Python's `ZeroDivisionError`); and a non-empty dataset whose `km` values
are all `100` makes `normalize_cars` raise that error. -/
theorem claim_C5_normalize_degenerate :
    (∀ x mn mx : ℚ, mx ≠ mn →
      normalize (.fin x) (.fin mn) (.fin mx) = .ok (.fin ((x - mn) / (mx - mn)))) ∧
    (∀ x mn : ℚ, normalize (.fin x) (.fin mn) (.fin mn) = .error .zeroDivision) ∧
    (∀ cars : List Car, cars ≠ [] → (∀ c ∈ cars, c.km = .fin 100) →
      normalize_cars cars = .error .zeroDivision) := by
  refine ⟨?_, ?_, ?_⟩
  · intro x mn mx hne
    simp [normalize, psub_fin, pdiv_fin_ne _ _ (sub_ne_zero.mpr hne)]
  · intro x mn
    simp [normalize, psub_fin, pdiv]
  · intro cars hne hall
    match cars, hne with
    | c :: rest, _ =>
      have hc : c.km = .fin 100 := hall c (List.mem_cons_self c rest)
      have hrest : ∀ x ∈ rest.map (fun car => car.km), x = PFloat.fin 100 := by
        intro x hx
        rcases List.mem_map.mp hx with ⟨car, hcar, hxeq⟩
        exact hxeq ▸ hall car (List.mem_cons_of_mem c hcar)
      have hmin := pyMinFold_const (rest.map (fun car => car.km)) (.fin 100) hrest
      have hmax := pyMaxFold_const (rest.map (fun car => car.km)) (.fin 100) hrest
      rw [normalize_cars]
      rw [get_minmax_cons]
      rw [hc, hmin, hmax]
      simp [Except.bind, bind, List.mapM, List.mapM.loop, normalize, psub_fin, pdiv]

/-- Witness for claim C5: a concrete non-degenerate call, a concrete
degenerate call, and a concrete all-identical dataset. -/
theorem claim_C5_witness :
    normalize (.fin 3) (.fin 1) (.fin 2) = .ok (.fin ((3 - 1) / (2 - 1))) ∧
    normalize (.fin 5) (.fin 4) (.fin 4) = .error .zeroDivision ∧
    normalize_cars [{ km := .fin 100, price := .fin 5 }] = .error .zeroDivision :=
  ⟨claim_C5_normalize_degenerate.1 3 1 2 (by norm_num),
   claim_C5_normalize_degenerate.2.1 5 4,
   claim_C5_normalize_degenerate.2.2 [{ km := .fin 100, price := .fin 5 }]
     (by simp) (by simp)⟩

/-- When the range is non-degenerate, the normalization pass over the
dataset succeeds and is exactly a `map` that rewrites each `km` and keeps
each `price`. -/
theorem mapM_normalize_eq_map : ∀ (l : List Car) (mn mx : PFloat),
    psub mx mn ≠ .fin 0 →
    (l.mapM fun car => do
        let k ← normalize car.km mn mx
        pure { km := k, price := car.price : Car })
      = .ok (l.map fun car =>
          { km := pdivRaw (psub car.km mn) (psub mx mn), price := car.price })
  | [], mn, mx, _ => by simp [List.mapM, List.mapM.loop, pure_eq_ok]
  | c :: rest, mn, mx, h => by
    have hnorm : normalize c.km mn mx = .ok (pdivRaw (psub c.km mn) (psub mx mn)) := by
      simp [normalize, pdiv, h]
    rw [List.mapM_cons]
    rw [mapM_normalize_eq_map rest mn mx h]
    simp [hnorm, Except.bind, bind, pure_eq_ok]

/-- Claim C7: when the dataset's range `(min, max)` is non-degenerate,
`normalize_cars` applies `normalize` to the `km` of every observation and
leaves every `price` unchanged; the result is a `map` over the dataset, so
length and order are preserved. -/
theorem claim_C7_normalize_cars_frame (cars : List Car) (mn mx : ℚ)
    (hmm : get_minmax cars = .ok (.fin mn, .fin mx)) (hlt : mn < mx) :
    (∀ x : PFloat, normalize x (.fin mn) (.fin mx)
        = .ok (pdivRaw (psub x (.fin mn)) (psub (.fin mx) (.fin mn)))) ∧
    normalize_cars cars
      = .ok (cars.map fun car =>
          { km := pdivRaw (psub car.km (.fin mn)) (psub (.fin mx) (.fin mn)),
            price := car.price }) := by
  have hne0 : mx - mn ≠ 0 := sub_ne_zero.mpr (ne_of_gt hlt)
  have hne : psub (PFloat.fin mx) (.fin mn) ≠ .fin 0 := by
    simp [psub_fin, hne0]
  refine ⟨fun x => by simp [normalize, pdiv, psub_fin, hne0], ?_⟩
  rw [normalize_cars, hmm]
  simpa [Except.bind, bind] using mapM_normalize_eq_map cars (.fin mn) (.fin mx) hne

/-- Witness for claim C7 on the two-point dataset `[(1, 10), (3, 20)]`. -/
theorem claim_C7_witness :
    (∀ x : PFloat, normalize x (.fin 1) (.fin 3)
        = .ok (pdivRaw (psub x (.fin 1)) (psub (.fin 3) (.fin 1)))) ∧
    normalize_cars [{ km := .fin 1, price := .fin 10 }, { km := .fin 3, price := .fin 20 }]
      = .ok (([{ km := .fin 1, price := .fin 10 },
               { km := .fin 3, price := .fin 20 }] : List Car).map
          fun car =>
          { km := pdivRaw (psub car.km (.fin 1)) (psub (.fin 3) (.fin 1)),
            price := car.price }) :=
  claim_C7_normalize_cars_frame
    [{ km := .fin 1, price := .fin 10 }, { km := .fin 3, price := .fin 20 }] 1 3
    (by norm_num [get_minmax_cons, pyMinFold, pyMaxFold, pltb])
    (by norm_num)

/-- On finite values the Python `min` fold computes the rational `min`
fold. -/
theorem pyMinFold_fin : ∀ (qs : List ℚ) (a : ℚ),
    pyMinFold (qs.map .fin) (.fin a) = .fin (qs.foldl min a)
  | [], _ => rfl
  | q :: rest, a => by
    have hstep : (if pltb (.fin q) (.fin a) then PFloat.fin q else .fin a)
        = .fin (min a q) := by
      by_cases h : q < a
      · simp [pltb, h, min_eq_right h.le]
      · simp [pltb, h, min_eq_left (not_lt.mp h)]
    simp only [List.map_cons, pyMinFold, List.foldl_cons]
    rw [hstep]
    exact pyMinFold_fin rest (min a q)

/-- On finite values the Python `max` fold computes the rational `max`
fold. -/
theorem pyMaxFold_fin : ∀ (qs : List ℚ) (a : ℚ),
    pyMaxFold (qs.map .fin) (.fin a) = .fin (qs.foldl max a)
  | [], _ => rfl
  | q :: rest, a => by
    have hstep : (if pltb (.fin a) (.fin q) then PFloat.fin q else .fin a)
        = .fin (max a q) := by
      by_cases h : a < q
      · simp [pltb, h, max_eq_right h.le]
      · simp [pltb, h, max_eq_left (not_lt.mp h)]
    simp only [List.map_cons, pyMaxFold, List.foldl_cons]
    rw [hstep]
    exact pyMaxFold_fin rest (max a q)

theorem foldl_min_le_init : ∀ (qs : List ℚ) (a : ℚ), qs.foldl min a ≤ a
  | [], a => le_refl a
  | q :: rest, a => (foldl_min_le_init rest (min a q)).trans (min_le_left a q)

theorem foldl_min_le_mem : ∀ (qs : List ℚ) (a q : ℚ), q ∈ qs → qs.foldl min a ≤ q
  | q' :: rest, a, q, h => by
    rcases List.mem_cons.mp h with heq | hmem
    · subst heq
      exact (foldl_min_le_init rest (min a q)).trans (min_le_right a q)
    · exact foldl_min_le_mem rest (min a q') q hmem

theorem foldl_min_mem : ∀ (qs : List ℚ) (a : ℚ),
    qs.foldl min a = a ∨ qs.foldl min a ∈ qs
  | [], _ => .inl rfl
  | q :: rest, a => by
    rcases foldl_min_mem rest (min a q) with h | h
    · simp only [List.foldl_cons, h]
      rcases le_total a q with hle | hle
      · exact .inl (min_eq_left hle)
      · exact .inr (by rw [min_eq_right hle]; exact List.mem_cons_self q rest)
    · exact .inr (List.mem_cons_of_mem q (by simpa using h))

theorem foldl_max_init_le : ∀ (qs : List ℚ) (a : ℚ), a ≤ qs.foldl max a
  | [], a => le_refl a
  | q :: rest, a => (le_max_left a q).trans (foldl_max_init_le rest (max a q))

theorem foldl_max_mem_le : ∀ (qs : List ℚ) (a q : ℚ), q ∈ qs → q ≤ qs.foldl max a
  | q' :: rest, a, q, h => by
    rcases List.mem_cons.mp h with heq | hmem
    · subst heq
      exact (le_max_right a q).trans (foldl_max_init_le rest (max a q))
    · exact foldl_max_mem_le rest (max a q') q hmem

theorem foldl_max_mem : ∀ (qs : List ℚ) (a : ℚ),
    qs.foldl max a = a ∨ qs.foldl max a ∈ qs
  | [], _ => .inl rfl
  | q :: rest, a => by
    rcases foldl_max_mem rest (max a q) with h | h
    · simp only [List.foldl_cons, h]
      rcases le_total q a with hle | hle
      · exact .inl (max_eq_left hle)
      · exact .inr (by rw [max_eq_right hle]; exact List.mem_cons_self q rest)
    · exact .inr (List.mem_cons_of_mem q (by simpa using h))

/-- Claim C8: `get_minmax` raises the empty-sequence error (the spec's
`EmptyDatasetError`, Python's `ValueError` from `min`) exactly when the
dataset is empty, and on a non-empty dataset of finite `km` values it
returns the minimum and maximum of those values (both attained by some
observation and bounding every observation). -/
theorem claim_C8_get_minmax (cars : List Car) (qs : List ℚ) :
    (get_minmax cars = .error .valueError ↔ cars = []) ∧
    (cars.map (fun car => car.km) = qs.map .fin → qs ≠ [] →
      ∃ mn mx : ℚ, get_minmax cars = .ok (.fin mn, .fin mx) ∧
        mn ∈ qs ∧ mx ∈ qs ∧ ∀ q ∈ qs, mn ≤ q ∧ q ≤ mx) := by
  constructor
  · cases cars with
    | nil => simp [get_minmax, pyMin, Except.bind, bind]
    | cons c rest => simp [get_minmax_cons]
  · intro hmap hne
    match qs, hne with
    | q :: qrest, _ =>
      match cars, hmap with
      | c :: crest, hmap =>
        simp only [List.map_cons, List.cons.injEq] at hmap
        obtain ⟨hck, hcrest⟩ := hmap
        refine ⟨qrest.foldl min q, qrest.foldl max q, ?_, ?_, ?_, ?_⟩
        · rw [get_minmax_cons, hcrest, hck, pyMinFold_fin, pyMaxFold_fin]
        · rcases foldl_min_mem qrest q with h | h
          · rw [h]; exact List.mem_cons_self q qrest
          · exact List.mem_cons_of_mem q h
        · rcases foldl_max_mem qrest q with h | h
          · rw [h]; exact List.mem_cons_self q qrest
          · exact List.mem_cons_of_mem q h
        · intro x hx
          rcases List.mem_cons.mp hx with heq | hmem
          · subst heq
            exact ⟨foldl_min_le_init qrest x, foldl_max_init_le qrest x⟩
          · exact ⟨foldl_min_le_mem qrest q x hmem, foldl_max_mem_le qrest q x hmem⟩

/-- Witness for claim C8 on the dataset `[(3, 5), (1, 7)]` (and the empty
dataset through the first conjunct's right-to-left direction). -/
theorem claim_C8_witness :
    (get_minmax [] = .error .valueError ↔ ([] : List Car) = []) ∧
    (∃ mn mx : ℚ, get_minmax [toCar (3, 5), toCar (1, 7)] = .ok (.fin mn, .fin mx) ∧
      mn ∈ [(3 : ℚ), 1] ∧ mx ∈ [(3 : ℚ), 1] ∧ ∀ q ∈ [(3 : ℚ), 1], mn ≤ q ∧ q ≤ mx) :=
  ⟨(claim_C8_get_minmax [] []).1,
   (claim_C8_get_minmax [toCar (3, 5), toCar (1, 7)] [3, 1]).2 (by simp [toCar])
     (by simp)⟩

/-- On an all-finite dataset the per-epoch accumulation computes the two
exact error sums. -/
theorem epochAccum_fin : ∀ (data : List (ℚ × ℚ)) (a b u v : ℚ),
    List.foldl (accumStep (.fin a) (.fin b)) (.fin u, .fin v) (data.map toCar)
      = (.fin (u + errSumT0 data a b), .fin (v + errSumT1 data a b))
  | [], a, b, u, v => by simp [errSumT0, errSumT1]
  | p :: rest, a, b, u, v => by
    have hstep : accumStep (.fin a) (.fin b) (.fin u, .fin v) (toCar p)
        = (.fin (u + (a + b * p.1 - p.2)), .fin (v + (a + b * p.1 - p.2) * p.1)) := by
      simp [accumStep, toCar, estimate_price]
    simp only [List.map_cons, List.foldl_cons, hstep]
    rw [epochAccum_fin rest a b]
    simp only [errSumT0, errSumT1, List.map_cons, List.sum_cons, Prod.mk.injEq,
      PFloat.fin.injEq]
    constructor <;> ring

/-- On an all-finite dataset with `n ≠ 0` rows, one epoch of the code's
update equals the spec's update formulas exactly. -/
theorem epochUpdate_fin (data : List (ℚ × ℚ)) (n : ℕ) (l a b : ℚ) (hn : n ≠ 0) :
    epochUpdate (data.map toCar) n (.fin l) (.fin a) (.fin b)
      = .ok { t0 := .fin ((specEpoch data l n (a, b)).1),
              t1 := .fin ((specEpoch data l n (a, b)).2),
              temp_t0 := .fin (l * errSumT0 data a b / n),
              temp_t1 := .fin (l * errSumT1 data a b / n) } := by
  have hcast : (n : ℚ) ≠ 0 := Nat.cast_ne_zero.mpr hn
  rw [epochUpdate]
  rw [show epochAccum (data.map toCar) (.fin a) (.fin b)
      = (.fin (0 + errSumT0 data a b), .fin (0 + errSumT1 data a b)) from
    epochAccum_fin data a b 0 0]
  rw [pdiv_fin_ne 1 n hcast]
  simp only [Except.bind, bind, pure_eq_ok, pmul_fin, psub_fin, zero_add,
    Except.ok.injEq, EpochUpdate.mk.injEq, PFloat.fin.injEq, specEpoch]
  refine ⟨by ring, by ring, by ring, by ring⟩

/-- On an all-finite dataset the training loop never takes the NaN early
return and computes exactly the spec's recursion. -/
theorem trainLoop_fin (data : List (ℚ × ℚ)) (n : ℕ) (l : ℚ) (hn : n ≠ 0) :
    ∀ (k i : ℕ) (a b : ℚ),
    trainLoop (data.map toCar) n (.fin l) k i (.fin a) (.fin b)
      = .ok (.completed (.fin ((specTrain data l n k (a, b)).1))
                        (.fin ((specTrain data l n k (a, b)).2)))
  | 0, _, _, _ => rfl
  | k + 1, i, a, b => by
    rw [trainLoop, epochUpdate_fin data n l a b hn]
    simp only [Except.bind, bind, PFloat.isnan, Bool.or_self]
    rw [trainLoop_fin data n l hn k (i + 1)
      (specEpoch data l n (a, b)).1 (specEpoch data l n (a, b)).2]
    rfl

/-- Claim C2: on every non-empty all-finite dataset, training runs batch
gradient descent exactly as the spec words it: starting from
`intercept = slope = 0`, each epoch sums `error = (intercept + slope*x) - y`
and `error * x` over the whole dataset and updates
`intercept -= learning_rate * sum_error_intercept / n` and
`slope -= learning_rate * sum_error_slope / n`, with `n` the dataset size. -/
theorem claim_C2_batch_gradient_descent (data : List (ℚ × ℚ)) (l : ℚ)
    (epochs : ℤ) (hne : data ≠ []) :
    mainRun (data.map toCar) (.fin l) epochs false
      = .ok (.theta (.fin ((specTrain data l data.length epochs.toNat (0, 0)).1))
                    (.fin ((specTrain data l data.length epochs.toNat (0, 0)).2))) := by
  have hmapne : data.map toCar ≠ [] := by
    simp [hne]
  obtain ⟨mm, hmm⟩ : ∃ mm, get_minmax (data.map toCar) = .ok mm := by
    match hdata : data.map toCar, hmapne with
    | c :: rest, _ => exact ⟨_, get_minmax_cons c rest⟩
  rw [mainRun, hmm]
  simp only [Except.bind, bind, Bool.false_eq_true, if_false, pure_eq_ok,
    List.length_map]
  rw [trainLoop_fin data data.length l
    (fun h => hne (List.length_eq_zero.mp h)) epochs.toNat 0 0 0]

/-- Witness for claim C2 on the dataset `[(1, 2)]` with learning rate 1 and
one epoch. -/
theorem claim_C2_witness :
    mainRun ([((1 : ℚ), (2 : ℚ))].map toCar) (.fin 1) 1 false
      = .ok (.theta (.fin ((specTrain [(1, 2)] 1 [((1 : ℚ), (2 : ℚ))].length
                            (Int.toNat 1) (0, 0)).1))
                    (.fin ((specTrain [(1, 2)] 1 [((1 : ℚ), (2 : ℚ))].length
                            (Int.toNat 1) (0, 0)).2))) :=
  claim_C2_batch_gradient_descent [(1, 2)] 1 1 (by simp)

/-- `get_minmax` succeeds on every non-empty dataset. -/
theorem get_minmax_ok_of_ne_nil (cars : List Car) (h : cars ≠ []) :
    ∃ mm, get_minmax cars = .ok mm := by
  match cars, h with
  | c :: rest, _ => exact ⟨_, get_minmax_cons c rest⟩

/-- Claim C10: the training entry point does not validate that the epoch
count is positive: for every `epochs ≤ 0` the loop body never runs and the
run prints the untrained parameters `t0 = 0.0`, `t1 = 0.0` — also with
normalization enabled, since denormalizing `(0, 0)` over a non-degenerate
range gives back `(0, 0)`. -/
theorem claim_C10_nonpositive_epochs (cars : List Car) (lr : PFloat)
    (epochs : ℤ) (mn mx : ℚ) (hep : epochs ≤ 0) :
    (cars ≠ [] → mainRun cars lr epochs false = .ok (.theta (.fin 0) (.fin 0))) ∧
    (get_minmax cars = .ok (.fin mn, .fin mx) → mn < mx →
      mainRun cars lr epochs true = .ok (.theta (.fin 0) (.fin 0))) := by
  have htz : epochs.toNat = 0 := Int.toNat_eq_zero.mpr hep
  constructor
  · intro hne
    obtain ⟨mm, hmm⟩ := get_minmax_ok_of_ne_nil cars hne
    rw [mainRun, hmm, htz]
    simp [Except.bind, bind, pure_eq_ok, trainLoop]
  · intro hmm hlt
    have hne0 : mx - mn ≠ 0 := sub_ne_zero.mpr (ne_of_gt hlt)
    have hne : psub (PFloat.fin mx) (.fin mn) ≠ .fin 0 := by
      simp [psub_fin, hne0]
    have hnc : normalize_cars cars
        = .ok (cars.map fun car =>
            { km := pdivRaw (psub car.km (.fin mn)) (psub (.fin mx) (.fin mn)),
              price := car.price }) := by
      rw [normalize_cars, hmm]
      simpa [Except.bind, bind] using mapM_normalize_eq_map cars (.fin mn) (.fin mx) hne
    have hd : denormalize_theta (.fin 0) (.fin 0) (.fin mn) (.fin mx)
        = .ok (.fin 0, .fin 0) := by
      simp [denormalize_theta, psub_fin, pdiv_fin_ne _ _ hne0, Except.bind, bind,
        pure_eq_ok]
    rw [mainRun, hmm, htz]
    simp [Except.bind, bind, pure_eq_ok, hnc, trainLoop, hd]

/-- Witness for claim C10 on `[(1, 2), (3, 4)]` with `epochs = -3`, both
with and without normalization. -/
theorem claim_C10_witness :
    mainRun [toCar (1, 2), toCar (3, 4)] (.fin 1) (-3) false
      = .ok (.theta (.fin 0) (.fin 0)) ∧
    mainRun [toCar (1, 2), toCar (3, 4)] (.fin 1) (-3) true
      = .ok (.theta (.fin 0) (.fin 0)) :=
  ⟨(claim_C10_nonpositive_epochs [toCar (1, 2), toCar (3, 4)] (.fin 1) (-3) 1 3
      (by norm_num)).1 (by simp),
   (claim_C10_nonpositive_epochs [toCar (1, 2), toCar (3, 4)] (.fin 1) (-3) 1 3
      (by norm_num)).2
     (by norm_num [get_minmax_cons, pyMinFold, pyMaxFold, pltb, toCar])
     (by norm_num)⟩

/-- Claim C1 (amended): after each epoch's parameter update, if either
parameter is NaN (`math.isnan` — not merely non-finite), the run terminates
immediately at that epoch, reporting the epoch index and the offending
values (`t0`, `t1`, `temp_t0`, `temp_t1`) and performing no further epochs
and returning no fitted parameters; a parameter that is infinite but not
NaN does not trigger this termination. -/
theorem claim_C1_nan_terminates (cars : List Car) (n k i : ℕ)
    (lr t0 t1 : PFloat) (u : EpochUpdate)
    (hu : epochUpdate cars n lr t0 t1 = .ok u)
    (hnan : (u.t0.isnan || u.t1.isnan) = true) :
    trainLoop cars n lr (k + 1) i t0 t1
      = .ok (.diverged i u.t0 u.t1 u.temp_t0 u.temp_t1) := by
  simp only [trainLoop, hu, Except.bind, bind]
  simp [hnan]

/-- Witness for the amended claim C1: on the dataset `[(1, inf)]` the epoch
starting from `(inf, inf)` produces NaN parameters and the loop stops at
that epoch (index 1) reporting them. -/
theorem claim_C1_witness :
    epochUpdate [{ km := .fin 1, price := .inf }] 1 (.fin 1) .inf .inf
      = .ok { t0 := .nan, t1 := .nan, temp_t0 := .nan, temp_t1 := .nan } ∧
    trainLoop [{ km := .fin 1, price := .inf }] 1 (.fin 1) (0 + 1) 1 .inf .inf
      = .ok (.diverged 1 .nan .nan .nan .nan) := by
  have hu : epochUpdate [{ km := .fin 1, price := .inf }] 1 (.fin 1) .inf .inf
      = .ok { t0 := .nan, t1 := .nan, temp_t0 := .nan, temp_t1 := .nan } := by
    norm_num [epochUpdate, epochAccum, accumStep, estimate_price, padd, pmul, psub,
      pneg, pdiv, pdivRaw, Except.bind, bind, pure_eq_ok, List.foldl_cons,
      List.foldl_nil]
  exact ⟨hu,
    claim_C1_nan_terminates [{ km := .fin 1, price := .inf }] 1 0 1 (.fin 1)
      .inf .inf { t0 := .nan, t1 := .nan, temp_t0 := .nan, temp_t1 := .nan } hu rfl⟩

/-- Counterexample to claim C1 as stated: on the dataset `[(1, inf)]` with
learning rate 1, the first epoch's update leaves both parameters at `+inf`
— non-finite but not NaN — yet with `epochs = 1` the run does not terminate
with a divergence report: it completes normally and returns the infinite
parameters; and with `epochs = 2` training continues past that epoch into
epoch index 1. -/
theorem claim_C1_counterexample :
    mainRun [{ km := .fin 1, price := .inf }] (.fin 1) 1 false
      = .ok (.theta .inf .inf) ∧
    PFloat.isFinite .inf = false ∧
    trainLoop [{ km := .fin 1, price := .inf }] 1 (.fin 1) 2 0 (.fin 0) (.fin 0)
      = .ok (.diverged 1 .nan .nan .nan .nan) := by
  refine ⟨?_, rfl, ?_⟩ <;>
    norm_num [mainRun, get_minmax, pyMin, pyMax, pyMinFold, pyMaxFold, trainLoop,
      epochUpdate, epochAccum, accumStep, estimate_price, padd, pmul, psub, pneg,
      pdiv, pdivRaw, pltb, Except.bind, bind, pure_eq_ok, PFloat.isnan,
      List.foldl_cons, List.foldl_nil]

/-- Claim C4 (amended): every error raised as an exception during a
training run — empty dataset, degenerate range, malformed input — propagates
to the entry point, which reports the single-line diagnostic and terminates
with exit status 1, printing no parameters; but divergence is not an
exception: the run prints the divergence diagnostic and exits with status 0
(no parameters are printed in that case either). -/
theorem claim_C4_errors_exit_nonzero (loaded : Except PyErr (List Car))
    (lr : PFloat) (epochs : ℤ) (nm : Bool) (e : PyErr) (out : MainOutput) :
    (loaded.bind (fun cars => mainRun cars lr epochs nm) = .error e →
      entry loaded lr epochs nm = (.error e, 1)) ∧
    (loaded.bind (fun cars => mainRun cars lr epochs nm) = .ok out →
      entry loaded lr epochs nm = (.ok out, 0)) := by
  constructor <;> intro h <;> simp only [entry, h]

/-- Witness for the amended claim C4: the empty dataset raises the spec's
`EmptyDatasetError` (Python `ValueError`), so the entry point reports it
and exits with status 1; the diverging run `[(1, inf)]` exits with 0. -/
theorem claim_C4_witness :
    entry (.ok []) (.fin 1) 10 false = (.error .valueError, 1) ∧
    entry (.ok [{ km := .fin 1, price := .inf }]) (.fin 1) 2 false
      = (.ok (.divergedMsg 1 .nan .nan .nan .nan), 0) := by
  have h1 : (Except.ok ([] : List Car)).bind
      (fun cars => mainRun cars (.fin 1) 10 false) = .error .valueError := by
    norm_num [mainRun, get_minmax, pyMin, Except.bind, bind]
  have h2 : (Except.ok [{ km := .fin 1, price := .inf : Car }]).bind
      (fun cars => mainRun cars (.fin 1) 2 false)
      = .ok (.divergedMsg 1 .nan .nan .nan .nan) := by
    norm_num [mainRun, get_minmax, pyMin, pyMax, pyMinFold, pyMaxFold, trainLoop,
      epochUpdate, epochAccum, accumStep, estimate_price, padd, pmul, psub, pneg,
      pdiv, pdivRaw, pltb, Except.bind, bind, pure_eq_ok, PFloat.isnan,
      List.foldl_cons, List.foldl_nil]
  exact ⟨(claim_C4_errors_exit_nonzero (.ok []) (.fin 1) 10 false .valueError
      (.theta .nan .nan)).1 h1,
    (claim_C4_errors_exit_nonzero (.ok [{ km := .fin 1, price := .inf }]) (.fin 1) 2
      false .valueError (.divergedMsg 1 .nan .nan .nan .nan)).2 h2⟩

/-- Counterexample to claim C4 as stated: divergence is an error of a
training run, yet the diverging run on `[(1, inf)]` terminates with exit
status 0, not a distinguished non-zero failure status. -/
theorem claim_C4_counterexample :
    entry (.ok [{ km := .fin 1, price := .inf }]) (.fin 1) 2 false
      = (.ok (.divergedMsg 1 .nan .nan .nan .nan), 0) := by
  norm_num [entry, mainRun, get_minmax, pyMin, pyMax, pyMinFold, pyMaxFold,
    trainLoop, epochUpdate, epochAccum, accumStep, estimate_price, padd, pmul,
    psub, pneg, pdiv, pdivRaw, pltb, Except.bind, bind, pure_eq_ok, PFloat.isnan,
    List.foldl_cons, List.foldl_nil]

end LinReg
